import Mathlib

/-!
Verification of the structural-rewrite layer of the qiskit-terra fork
(georgezhou20/qiskit-terra): shallow embeddings of

* the dynamical-decoupling pass
  (qiskit/transpiler/passes/scheduling/dynamical_decoupling_multi.py),
* the control-flow lowering pass
  (qiskit/transpiler/passes/control_flow/expand_control_flow.py),
* the loop-unrolling pass
  (qiskit/transpiler/passes/control_flow/unroll_loops.py),
* the adjacent-delay merger
  (qiskit/transpiler/passes/utils/collect_adjacent_delays.py),

together with proofs and refutations of the frozen claims about them.
-/

set_option maxRecDepth 10000

open scoped BigOperators

/-! ## Dynamical decoupling: global-phase bookkeeping

`DynamicalDecouplingMulti.run` updates the output graph global phase once per
inserted decoupling sequence (line 167):

    new_dag.global_phase = _mod_2pi(new_dag.global_phase + sequence_gphase)

and the helper `_mod_2pi` (lines 172-177) is

    wrapped = (angle + np.pi) % (2 * np.pi) - np.pi
    if abs(wrapped - np.pi) < atol: wrapped = -np.pi
    return wrapped

with `atol` defaulting to `0` (the call site passes a single argument).
Python float modulo `a % b` for `b > 0` is `a - b * floor(a / b)`.
-/

/-- `_mod_2pi` with its explicit `atol` argument: wrap into `[-π, π)` and clamp
values within `atol` of `π` down to `-π`. -/
noncomputable def mod2piAtol (angle atol : ℝ) : ℝ :=
  let wrapped := (angle + Real.pi) - 2 * Real.pi * ⌊(angle + Real.pi) / (2 * Real.pi)⌋ - Real.pi
  if |wrapped - Real.pi| < atol then -Real.pi else wrapped

/-- `_mod_2pi` as called from `run` (default `atol = 0`). -/
noncomputable def mod2pi (angle : ℝ) : ℝ := mod2piAtol angle 0

/-- Global phase recorded after `n` insertions of a decoupling sequence of
residual phase `seqPhase`, starting from global phase `0`: each insertion
executes `new_dag.global_phase = _mod_2pi(new_dag.global_phase + sequence_gphase)`. -/
noncomputable def ddGlobalPhase (seqPhase : ℝ) : ℕ → ℝ
  | 0 => 0
  | n + 1 => mod2pi (ddGlobalPhase seqPhase n + seqPhase)

lemma mod2pi_eq (a : ℝ) :
    mod2pi a = a - 2 * Real.pi * ⌊(a + Real.pi) / (2 * Real.pi)⌋ := by
  unfold mod2pi mod2piAtol
  rw [if_neg (abs_nonneg _).not_lt]
  ring

lemma mod2pi_add_int_mul (a : ℝ) (k : ℤ) :
    mod2pi (a + 2 * Real.pi * k) = mod2pi a := by
  have h2π : (2 * Real.pi) ≠ 0 := by positivity
  rw [mod2pi_eq, mod2pi_eq]
  have : (a + 2 * Real.pi * k + Real.pi) / (2 * Real.pi)
      = (a + Real.pi) / (2 * Real.pi) + k := by
    field_simp
    ring
  rw [this, Int.floor_add_int]
  push_cast
  ring

lemma mod2pi_mod2pi_add (a b : ℝ) : mod2pi (mod2pi a + b) = mod2pi (a + b) := by
  have h := mod2pi_add_int_mul (a + b) (-⌊(a + Real.pi) / (2 * Real.pi)⌋)
  rw [mod2pi_eq a]
  rw [show a - 2 * Real.pi * ⌊(a + Real.pi) / (2 * Real.pi)⌋ + b
      = a + b + 2 * Real.pi * (-⌊(a + Real.pi) / (2 * Real.pi)⌋ : ℤ) by push_cast; ring]
  exact h

lemma mod2pi_mem_Ico (a : ℝ) : mod2pi a ∈ Set.Ico (-Real.pi) Real.pi := by
  have h2π : (0 : ℝ) < 2 * Real.pi := by positivity
  rw [mod2pi_eq]
  have hfr₀ : 0 ≤ Int.fract ((a + Real.pi) / (2 * Real.pi)) := Int.fract_nonneg _
  have hfr₁ : Int.fract ((a + Real.pi) / (2 * Real.pi)) < 1 := Int.fract_lt_one _
  have key : a - 2 * Real.pi * ⌊(a + Real.pi) / (2 * Real.pi)⌋
      = 2 * Real.pi * Int.fract ((a + Real.pi) / (2 * Real.pi)) - Real.pi := by
    rw [Int.fract]
    field_simp
    ring
  rw [key]
  constructor
  · nlinarith
  · nlinarith

lemma mod2pi_zero : mod2pi 0 = 0 := by
  rw [mod2pi_eq]
  have : (0 + Real.pi) / (2 * Real.pi) = 1 / 2 := by
    rw [zero_add]
    rw [div_eq_div_iff (by positivity) (by norm_num)]
    ring
  rw [this]
  norm_num

lemma mod2pi_pi : mod2pi Real.pi = -Real.pi := by
  rw [mod2pi_eq]
  have : (Real.pi + Real.pi) / (2 * Real.pi) = 1 := by
    field_simp
    ring
  rw [this, Int.floor_one]
  push_cast
  ring

lemma ddGlobalPhase_eq_mod2pi (θ : ℝ) : ∀ n : ℕ, ddGlobalPhase θ n = mod2pi (n * θ)
  | 0 => by simp [ddGlobalPhase, mod2pi_zero]
  | n + 1 => by
      rw [ddGlobalPhase, ddGlobalPhase_eq_mod2pi θ n, mod2pi_mod2pi_add]
      push_cast
      ring_nf

/-- Residual global phase of the constructor-fixed decoupling sequence: the
matrix product of `[X, RZ(π), X, RZ(-π)]` is `-I` (see `seqProduct` below), and
`np.angle(noop[0][0]) = np.angle(-1) = π`. -/
noncomputable def sequenceGPhase : ℝ := Real.pi

/-- C1, counterexample.  The claim asserts the recorded global phase is always
wrapped into the half-open interval `(-π, π]` and equals
`N × (sequence phase) mod 2π` wrapped into that interval.  After a single
insertion of the fixed sequence (residual phase `π`), the stored value is
`-π`, which lies outside `(-π, π]` (and differs from `π`, the value of
`1 × π mod 2π` wrapped into `(-π, π]`). -/
theorem c1_counterexample :
    ddGlobalPhase sequenceGPhase 1 = -Real.pi ∧
    ddGlobalPhase sequenceGPhase 1 ∉ Set.Ioc (-Real.pi) Real.pi := by
  have h1 : ddGlobalPhase sequenceGPhase 1 = -Real.pi := by
    show mod2pi (ddGlobalPhase sequenceGPhase 0 + sequenceGPhase) = -Real.pi
    show mod2pi (0 + sequenceGPhase) = -Real.pi
    rw [zero_add]
    exact mod2pi_pi
  refine ⟨h1, ?_⟩
  rw [h1]
  intro hmem
  exact lt_irrefl _ hmem.1

/-- C1, amended.  Each insertion of the decoupling sequence updates the
recorded global phase to `_mod_2pi(previous + sequence phase)`; starting from
global phase `0`, after `n` insertions the stored value equals
`n × (sequence phase) mod 2π` wrapped into the half-open interval `[-π, π)`
(not `(-π, π]`). -/
theorem c1_dd_global_phase (θ : ℝ) (n : ℕ) :
    ddGlobalPhase θ (n + 1) = mod2pi (ddGlobalPhase θ n + θ) ∧
    ddGlobalPhase θ n = mod2pi (n * θ) ∧
    ddGlobalPhase θ n ∈ Set.Ico (-Real.pi) Real.pi := by
  refine ⟨rfl, ddGlobalPhase_eq_mod2pi θ n, ?_⟩
  rw [ddGlobalPhase_eq_mod2pi θ n]
  exact mod2pi_mem_Ico _

/-! ## Dynamical decoupling: the constructor-fixed sequence

`DynamicalDecouplingMulti.__init__` takes no sequence argument; it always sets

    self._dd_sequence = [XGate(), RZGate(np.pi), XGate(), RZGate(-np.pi)]

`run` (lines 88-98) validates this sequence: with `num_pulses != 1`, an odd
length raises `TranspilerError` ("even number of gates"), and a matrix product
not proportional to the identity raises `TranspilerError` ("does not make an
identity operation").  The gate matrices involved are exact Gaussian-integer
matrices: `X = [[0,1],[1,0]]`, `RZ(π) = diag(-i, i)`, `RZ(-π) = diag(i, -i)`,
so we embed them over `GaussianInt`. -/

/-- A 2×2 matrix `[[a, b], [c, d]]` over the Gaussian integers. -/
structure M2 where
  a : GaussianInt
  b : GaussianInt
  c : GaussianInt
  d : GaussianInt
deriving DecidableEq

/-- Matrix product, matching `numpy.dot` on 2×2 matrices. -/
def M2.mul (x y : M2) : M2 :=
  ⟨x.a * y.a + x.b * y.c, x.a * y.b + x.b * y.d,
   x.c * y.a + x.d * y.c, x.c * y.b + x.d * y.d⟩

/-- The identity matrix `np.eye(2)` (also `IGate().to_matrix()`). -/
def M2.one : M2 := ⟨1, 0, 0, 1⟩

/-- `XGate().to_matrix()`. -/
def XGateMatrix : M2 := ⟨0, 1, 1, 0⟩

/-- `RZGate(np.pi).to_matrix() = diag(exp(-iπ/2), exp(iπ/2)) = diag(-i, i)`. -/
def RZPiMatrix : M2 := ⟨⟨0, -1⟩, 0, 0, ⟨0, 1⟩⟩

/-- `RZGate(-np.pi).to_matrix() = diag(i, -i)`. -/
def RZNegPiMatrix : M2 := ⟨⟨0, 1⟩, 0, 0, ⟨0, -1⟩⟩

/-- `self._dd_sequence` as fixed by the constructor (gate matrices). -/
def ddSequence : List M2 := [XGateMatrix, RZPiMatrix, XGateMatrix, RZNegPiMatrix]

/-- `noop = np.eye(2); for gate in self._dd_sequence: noop = noop.dot(gate.to_matrix())`. -/
def seqProduct : M2 := ddSequence.foldl M2.mul M2.one

/-- `matrix_equal(noop, IGate().to_matrix(), ignore_phase=True)`: the matrix is
a nonzero scalar multiple of the identity (for a product of unitaries the
scalar necessarily has modulus one). -/
def M2.propIdentity (m : M2) : Bool :=
  m.b = 0 && m.c = 0 && m.a = m.d && !(m.a = 0)

/-- The two sequence-validation errors `run` can raise (lines 90-97). -/
inductive DDSeqError where
  | invalidSequence
  | nonIdentitySequence
deriving DecidableEq

/-- The sequence-validation logic of `run` (lines 88-98).  It depends only on
the decoupling sequence, never on the input graph. -/
def validateDDSequence (seq : List M2) : Option DDSeqError :=
  if seq.length ≠ 1 then
    if seq.length % 2 ≠ 0 then some DDSeqError.invalidSequence
    else if !(seq.foldl M2.mul M2.one).propIdentity then some DDSeqError.nonIdentitySequence
    else none
  else none

/-- C10.  The constructor accepts no sequence argument and always installs
`[X, RZ(π), X, RZ(-π)]`; its length is 4 (even) and its matrix product is
`-I`, which is proportional to the identity, so the validation at the top of
`run` never raises either sequence error: the two branches are unreachable
for every input graph (they do not inspect the graph at all). -/
theorem c10_sequence_errors_unreachable :
    validateDDSequence ddSequence = none ∧
    ddSequence.length = 4 ∧
    seqProduct = ⟨-1, 0, 0, -1⟩ := by
  refine ⟨?_, rfl, ?_⟩ <;> decide

/-! ## Dynamical decoupling: per-node processing of multi-qubit delays

`run` processes each multi-qubit delay node (lines 115-167).  The qubit
register is physical, so `qubit_index_map` is the identity and we use physical
indices directly.  The external collaborators are the duration table
(`index_sequence_duration_map`, here `seqDur : ℕ → ℚ`, the summed sequence
duration per physical qubit) and the greedy coloring of the reduced coupling
map (`coloring : ℕ → ℕ`, keyed by position in the node qargs as in
`coloring[i]`).  Timing arithmetic is embedded over `ℚ` with `np.floor`
as the rational floor. -/

/-- A multi-qubit delay node: its qargs (physical indices) and duration. -/
structure DelayNd where
  qargs : List ℕ
  duration : ℚ
deriving DecidableEq

/-- Operations emitted into `new_dag` while processing one delay node. -/
inductive DDOut where
  | delay (duration : ℚ) (qargs : List ℕ)
  | gate (name : String) (q : ℕ)
deriving DecidableEq

/-- `self._spacing_odd = [1/2, 1/2, 0, 0, 0]`. -/
def spacingOdd : List ℚ := [1/2, 1/2, 0, 0, 0]

/-- `self._spacing_even = [1/4, 1/2, 0, 0, 1/4]`. -/
def spacingEven : List ℚ := [1/4, 1/2, 0, 0, 1/4]

/-- `self._addition_odd = [1, 1, 0, 0, 0]`. -/
def additionOdd : List ℚ := [1, 1, 0, 0, 0]

/-- `self._addition_even = [0, 1, 0, 0, 1]`. -/
def additionEven : List ℚ := [0, 1, 0, 0, 1]

/-- Names of the four fixed sequence gates, in insertion order. -/
def ddGateNames : List String := ["x", "rz_pi", "x", "rz_neg_pi"]

/-- `_constrained_length(values) = alignment * np.floor(values / alignment)`. -/
def constrainedLength (alignment v : ℚ) : ℚ := alignment * ⌊v / alignment⌋

/-- The quantized gap list for one qubit (lines 144-159): element-wise
`_constrained_length(slack_prime * spacing) + _constrained_length(.5 * xx * addition)`,
with the rounding remainder added onto the middle gap (index 2). -/
def tausFor (alignment slack xx : ℚ) (spacing addition : List ℚ) : List ℚ :=
  let slackPrime := slack - xx
  let taus := List.zipWith (· + ·)
    (spacing.map (fun s => constrainedLength alignment (slackPrime * s)))
    (addition.map (fun s => constrainedLength alignment (1/2 * xx * s)))
  let unusedSlack := slack - taus.sum
  List.modify (fun t => t + unusedSlack) 2 taus

/-- `itertools.zip_longest(taus, self._dd_sequence)` loop (lines 161-165):
emit `Delay(tau)` when `tau > 0`, then the gate when present. -/
def interleaveTaus (q : ℕ) : List ℚ → List String → List DDOut
  | [], [] => []
  | [], g :: gs => DDOut.gate g q :: interleaveTaus q [] gs
  | t :: ts, [] =>
      (if 0 < t then [DDOut.delay t [q]] else []) ++ interleaveTaus q ts []
  | t :: ts, g :: gs =>
      (if 0 < t then [DDOut.delay t [q]] else []) ++
        (DDOut.gate g q :: interleaveTaus q ts gs)

/-- Processing of one multi-qubit delay node by `run` (lines 115-167):
the skip-after-reset branch (lines 125-128), the skip-threshold branch
(lines 130-136), and the insertion branch (lines 138-165). -/
def processDelayNode (seqDur : ℕ → ℚ) (coloring : ℕ → ℕ)
    (alignment skipThreshold : ℚ) (skipResetQubits isAfterReset : Bool)
    (nd : DelayNd) : List DDOut :=
  if skipResetQubits && isAfterReset then
    [DDOut.delay nd.duration nd.qargs]
  else
    let slackFractions := nd.qargs.map (fun q => (nd.duration - seqDur q) / nd.duration)
    if slackFractions.any (fun sf => decide (1 - sf ≥ skipThreshold)) then
      nd.qargs.map (fun q => DDOut.delay nd.duration [q])
    else
      nd.qargs.flatMap (fun q =>
        let i := nd.qargs.indexOf q
        let slack := nd.duration - seqDur q
        let xx := seqDur q
        let taus :=
          if coloring i = 0 then tausFor alignment slack xx spacingOdd additionOdd
          else tausFor alignment slack xx spacingEven additionEven
        interleaveTaus q taus ddGateNames)

/-- A 2-qubit delay of duration 700 whose decoupling sequence needs 600 time
units on either qubit: the unfilled fraction is `1 - 100/700 = 6/7 ≥ 4/5`. -/
def skipExampleNode : DelayNd := ⟨[0, 1], 700⟩

/-- C2, counterexample.  For a node hitting the skip threshold the claim says
the pass emits the original delay operation on the original qubits, i.e. the
single 2-qubit delay `Delay(700)` on `[0, 1]`.  The code instead executes
`for q in dag_qubits: new_dag.apply_operation_back(Delay(nd.op.duration), [q], [])`,
emitting one fresh single-qubit delay per qubit. -/
theorem c2_counterexample :
    processDelayNode (fun _ => 600) (fun _ => 0) 1 (4/5) true false skipExampleNode
      = [DDOut.delay 700 [0], DDOut.delay 700 [1]] ∧
    processDelayNode (fun _ => 600) (fun _ => 0) 1 (4/5) true false skipExampleNode
      ≠ [DDOut.delay 700 [0, 1]] := by
  have h : processDelayNode (fun _ => 600) (fun _ => 0) 1 (4/5) true false skipExampleNode
      = [DDOut.delay 700 [0], DDOut.delay 700 [1]] := by
    simp only [processDelayNode, skipExampleNode, Bool.and_false, Bool.false_eq_true,
      if_false, List.map_cons, List.map_nil, List.any_cons, List.any_nil]
    norm_num
  refine ⟨h, ?_⟩
  rw [h]
  decide

/-- C2, amended.  For every multi-qubit delay node (not taken by the
skip-after-reset branch) where some qubit has unfilled fraction
`1 - slack/idle_duration ≥ skip_threshold`, the pass abandons insertion and
emits one fresh single-qubit delay of the full idle duration on each of the
node qubits (not the original multi-qubit delay operation). -/
theorem c2_skip_threshold (seqDur : ℕ → ℚ) (coloring : ℕ → ℕ)
    (alignment skipThreshold : ℚ) (skipResetQubits : Bool) (nd : DelayNd)
    (hq : ∃ q ∈ nd.qargs, 1 - (nd.duration - seqDur q) / nd.duration ≥ skipThreshold) :
    processDelayNode seqDur coloring alignment skipThreshold skipResetQubits false nd
      = nd.qargs.map (fun q => DDOut.delay nd.duration [q]) := by
  obtain ⟨q, hqmem, hge⟩ := hq
  have hcond : ((nd.qargs.map (fun q => (nd.duration - seqDur q) / nd.duration)).any
      (fun sf => decide (1 - sf ≥ skipThreshold))) = true := by
    rw [List.any_eq_true]
    refine ⟨(nd.duration - seqDur q) / nd.duration, List.mem_map_of_mem _ hqmem, ?_⟩
    simpa using hge
  simp only [processDelayNode, Bool.and_false, Bool.false_eq_true, if_false, hcond, if_true]

/-- C2, witness for the amended theorem at the concrete skip example. -/
theorem c2_skip_threshold_witness :
    (∃ q ∈ skipExampleNode.qargs,
        1 - (skipExampleNode.duration - (600 : ℚ)) / skipExampleNode.duration ≥ (4/5 : ℚ)) ∧
    processDelayNode (fun _ => 600) (fun _ => 0) 1 (4/5) true false skipExampleNode
      = skipExampleNode.qargs.map (fun q => DDOut.delay skipExampleNode.duration [q]) :=
  ⟨⟨0, by decide, by norm_num [skipExampleNode]⟩,
   c2_skip_threshold (fun _ => 600) (fun _ => 0) 1 (4/5) true skipExampleNode
     ⟨0, by decide, by norm_num [skipExampleNode]⟩⟩

/-! ## Loop unrolling (UnrollLoops.run)

`UnrollLoops.run` iterates `range(loop_node.op.start, loop_node.op.stop,
loop_node.op.increment)`, binds the loop parameter to each value in a copy of
the loop body (`block.bind_parameters`), appends the copies sequentially and
substitutes the loop node with the result.  `ForLoopOp.__init__` stores
`start`, `stop`, `increment` unchecked, so they may be arbitrary Python
values; CPython's `range` raises `TypeError` if any argument is not an
integer (this is the failure the spec names `NonIntegerBound`) and
`ValueError` on a zero step.  A loop body is a sequence of instructions whose
arguments are either literals or references to a named parameter. -/

/-- A Python value stored in a `ForLoopOp` bound: either a concrete integer
or anything else (float, Parameter object, ...), tagged with a description. -/
inductive PyVal where
  | pint : ℤ → PyVal
  | nonint : String → PyVal
deriving DecidableEq

/-- Whether the value is a concrete integer. -/
def PyVal.isInt : PyVal → Bool
  | .pint _ => true
  | .nonint _ => false

/-- How a run of `UnrollLoops` on a for-loop node can fail:
`range` raises `TypeError` for a non-integer bound (`NonIntegerBound`)
and `ValueError` for a zero step. -/
inductive UnrollError where
  | nonIntegerBound
  | zeroStep
deriving DecidableEq

/-- Number of iterations of `range(start, stop, step)` for `step ≠ 0`:
`max(0, ceil((stop - start) / step))`. -/
def rangeLen (start stop step : ℤ) : ℕ :=
  if 0 < step then ((stop - start + step - 1) / step).toNat
  else ((start - stop + (-step) - 1) / (-step)).toNat

/-- The value list of `range(start, stop, step)` for `step ≠ 0`. -/
def pythonRange (start stop step : ℤ) : List ℤ :=
  (List.range (rangeLen start stop step)).map (fun k : ℕ => start + (k : ℤ) * step)

/-- `range(start, stop, step)` on arbitrary Python values: all three
arguments must be concrete integers and the step must be nonzero. -/
def pyRangeVals : PyVal → PyVal → PyVal → Except UnrollError (List ℤ)
  | .pint a, .pint b, .pint c =>
      if c = 0 then .error UnrollError.zeroStep else .ok (pythonRange a b c)
  | _, _, _ => .error UnrollError.nonIntegerBound

/-- An instruction argument: a literal or a reference to a named parameter. -/
inductive PExpr where
  | lit : ℤ → PExpr
  | paramRef : String → PExpr
deriving DecidableEq

/-- One instruction of a loop body. -/
structure PInstr where
  name : String
  args : List PExpr
deriving DecidableEq

/-- A loop body: a sequential list of instructions. -/
abbrev Block := List PInstr

/-- `block.bind_parameters(loop_parameter: value)`: substitute the named
parameter by the literal value, pure and non-mutating. -/
def bindParam (p : String) (v : ℤ) (b : Block) : Block :=
  b.map (fun ins =>
    ⟨ins.name, ins.args.map (fun e =>
      match e with
      | PExpr.lit w => PExpr.lit w
      | PExpr.paramRef q => if q = p then PExpr.lit v else PExpr.paramRef q)⟩)

/-- The fields of a `ForLoopOp` relevant to unrolling. -/
structure PForLoopOp where
  loop_parameter : String
  start : PyVal
  stop : PyVal
  increment : PyVal
  block : Block

/-- `UnrollLoops.run` on one for-loop node: the sequential concatenation of
parameter-bound copies of the body, one per `range` value. -/
def unrollForLoop (op : PForLoopOp) : Except UnrollError (List Block) :=
  (pyRangeVals op.start op.stop op.increment).map
    (fun vals => vals.map (fun v => bindParam op.loop_parameter v op.block))

lemma pythonRange_length (start stop step : ℤ) :
    (pythonRange start stop step).length = rangeLen start stop step := by
  unfold pythonRange
  rw [List.length_map, List.length_range]

lemma pythonRange_getElem (start stop step : ℤ) (k : ℕ)
    (hk : k < (pythonRange start stop step).length) :
    (pythonRange start stop step)[k] = start + k * step := by
  unfold pythonRange at hk ⊢
  rw [List.getElem_map, List.getElem_range]

lemma lt_rangeLen_iff_of_pos (start stop step : ℤ) (hstep : 0 < step) (k : ℕ) :
    k < rangeLen start stop step ↔ start + k * step < stop := by
  unfold rangeLen
  rw [if_pos hstep, Int.lt_toNat, Int.lt_iff_add_one_le, Int.le_ediv_iff_mul_le hstep]
  constructor <;> intro h <;> nlinarith [h]

lemma lt_rangeLen_iff_of_neg (start stop step : ℤ) (hstep : step < 0) (k : ℕ) :
    k < rangeLen start stop step ↔ stop < start + k * step := by
  unfold rangeLen
  rw [if_neg (by omega), Int.lt_toNat, Int.lt_iff_add_one_le,
    Int.le_ediv_iff_mul_le (by omega)]
  constructor <;> intro h <;> nlinarith [h]

/-- C6.  For integer bounds with nonzero step, unrolling a for-loop succeeds
and replaces it by one parameter-bound copy of the body per value of the
arithmetic progression, under Python-range semantics: the k-th copy is bound
to `start + k * step`, a value is produced exactly while strictly before
`stop` (above it for negative step), and in particular `(0, 6, 2)` gives
exactly the three copies bound to 0, 2, 4, while `(0, 0, 1)` gives none. -/
theorem c6_unroll_for_loop (blk : Block) (p : String) (start stop step : ℤ)
    (hstep : step ≠ 0) :
    (unrollForLoop ⟨p, PyVal.pint start, PyVal.pint stop, PyVal.pint step, blk⟩
        = Except.ok ((pythonRange start stop step).map (fun v => bindParam p v blk))) ∧
    (∀ k : ℕ, ∀ hk : k < (pythonRange start stop step).length,
        (pythonRange start stop step)[k] = start + k * step) ∧
    (∀ k : ℕ, (0 < step →
        (k < (pythonRange start stop step).length ↔ start + k * step < stop)) ∧
      (step < 0 →
        (k < (pythonRange start stop step).length ↔ stop < start + k * step))) ∧
    (unrollForLoop ⟨p, PyVal.pint 0, PyVal.pint 6, PyVal.pint 2, blk⟩
        = Except.ok [bindParam p 0 blk, bindParam p 2 blk, bindParam p 4 blk]) ∧
    (unrollForLoop ⟨p, PyVal.pint 0, PyVal.pint 0, PyVal.pint 1, blk⟩
        = Except.ok []) := by
  have h062 : pythonRange 0 6 2 = [0, 2, 4] := by decide
  have h001 : pythonRange 0 0 1 = [] := by decide
  refine ⟨?_, ?_, ?_, ?_, ?_⟩
  · simp [unrollForLoop, pyRangeVals, hstep, Except.map]
  · intro k hk
    exact pythonRange_getElem start stop step k hk
  · intro k
    constructor
    · intro hsign
      rw [pythonRange_length]
      exact lt_rangeLen_iff_of_pos start stop step hsign k
    · intro hsign
      rw [pythonRange_length]
      exact lt_rangeLen_iff_of_neg start stop step hsign k
  · simp [unrollForLoop, pyRangeVals, h062, Except.map]
  · simp [unrollForLoop, pyRangeVals, h001, Except.map]

/-- A concrete loop body with one parameter-dependent rotation. -/
def sampleLoopBody : Block := [⟨"rx", [PExpr.paramRef "i"]⟩]

/-- C6, witness: the theorem applied at the loop `for i in range(0, 6, 2)`
over the concrete one-instruction body. -/
theorem c6_unroll_for_loop_witness :
    ((2 : ℤ) ≠ 0) ∧
    (unrollForLoop ⟨"i", PyVal.pint 0, PyVal.pint 6, PyVal.pint 2, sampleLoopBody⟩
        = Except.ok ((pythonRange 0 6 2).map (fun v => bindParam "i" v sampleLoopBody))) :=
  ⟨by decide, (c6_unroll_for_loop sampleLoopBody "i" 0 6 2 (by decide)).1⟩

/-- C7.  If any of start, stop, increment is not a concrete integer at unroll
time, `range` raises `TypeError` ('... object cannot be interpreted as an
integer'), the failure the spec calls `NonIntegerBound`. -/
theorem c7_non_integer_bound (op : PForLoopOp)
    (h : op.start.isInt = false ∨ op.stop.isInt = false ∨ op.increment.isInt = false) :
    unrollForLoop op = Except.error UnrollError.nonIntegerBound := by
  obtain ⟨p, s, e, i, blk⟩ := op
  cases s <;> cases e <;> cases i <;>
    simp_all [unrollForLoop, pyRangeVals, PyVal.isInt, Except.map]

/-- A for-loop node whose start bound is the Python float 0.5. -/
def nonIntLoopOp : PForLoopOp :=
  ⟨"i", PyVal.nonint "float 0.5", PyVal.pint 6, PyVal.pint 2, sampleLoopBody⟩

/-- C7, witness at the concrete float-bounded loop node. -/
theorem c7_non_integer_bound_witness :
    (nonIntLoopOp.start.isInt = false ∨ nonIntLoopOp.stop.isInt = false ∨
        nonIntLoopOp.increment.isInt = false) ∧
    unrollForLoop nonIntLoopOp = Except.error UnrollError.nonIntegerBound :=
  ⟨Or.inl rfl, c7_non_integer_bound nonIntLoopOp (Or.inl rfl)⟩

/-! ## The DAG substrate and ExpandControlFlow

A `Dag` is a directed multigraph with integer node ids (as in retworkx):
boundary `inp`/`outp` nodes per wire, operation nodes carrying name, qargs,
cargs and, for compound control-flow operations, the ordered list of nested
blocks.  A block (and any replacement circuit fed to
`substitute_node_with_dag`) is a sequential circuit: a list of operations
whose wires are positions into the host node wire list.  Node ids are
allocated monotonically (retworkx can reuse freed indices, but in the runs
modelled here every allocation precedes every removal, so the numbering
coincides).  `predecessor_indices`/`successor_indices` return one entry per
edge, as petgraph adjacency walks do on multigraphs; the relative order of
parallel entries never matters below because all queried entries are equal. -/

/-- A graph node: wire input / wire output boundary, or an operation. -/
inductive GNode where
  | inp (w : ℕ)
  | outp (w : ℕ)
  | op (name : String) (qargs : List ℕ) (cargs : List ℕ)
      (blocks : Option (List (List (String × List ℕ))))
deriving DecidableEq

/-- A sequential circuit over wire positions: `op._blocks` entries and any
replacement dag built with `apply_operation_back`. -/
abbrev Circ := List (String × List ℕ)

/-- A directed edge labelled by the wire it carries. -/
structure GEdge where
  src : ℕ
  dst : ℕ
  wire : ℕ
deriving DecidableEq

/-- The DAG: monotone id supply, node association list (in insertion order),
edge list, and the per-wire input/output boundary maps. -/
structure Dag where
  nextId : ℕ
  nodes : List (ℕ × GNode)
  edges : List GEdge
  inputs : List (ℕ × ℕ)
  outputs : List (ℕ × ℕ)
deriving DecidableEq

/-- Look up an association list of naturals with default 0. -/
def lookupA (l : List (ℕ × ℕ)) (w : ℕ) : ℕ :=
  ((l.find? (fun p => p.1 == w)).map (fun p => p.2)).getD 0

/-- A DAG with the given wires and no operations: one `inp`, one `outp` per
wire and the bare wire edge (`copy_empty_like` of a circuit shell). -/
def emptyOn (ws : List ℕ) : Dag :=
  let n := ws.length
  { nextId := 2 * n
  , nodes := ws.enum.map (fun p => (p.1, GNode.inp p.2))
      ++ ws.enum.map (fun p => (n + p.1, GNode.outp p.2))
  , edges := ws.enum.map (fun p => ⟨p.1, n + p.1, p.2⟩)
  , inputs := ws.enum.map (fun p => (p.2, p.1))
  , outputs := ws.enum.map (fun p => (p.2, n + p.1)) }

/-- `apply_operation_back`: append an operation node acting on the given
wires; each wire edge entering the wire output is redirected into the new
node, which is then wired to the outputs. -/
def applyOperationBack (name : String) (qargs cargs : List ℕ)
    (blocks : Option (List Circ)) (d : Dag) : Dag :=
  let nid := d.nextId
  let ws := qargs ++ cargs
  { nextId := nid + 1
  , nodes := d.nodes ++ [(nid, GNode.op name qargs cargs blocks)]
  , edges :=
      (ws.foldl (fun es w =>
        es.map (fun e =>
          if e.dst == lookupA d.outputs w && e.wire == w then ⟨e.src, nid, w⟩ else e))
        d.edges)
      ++ ws.map (fun w => ⟨nid, lookupA d.outputs w, w⟩)
  , inputs := d.inputs
  , outputs := d.outputs }

/-- Chain a wire from `p` through the nodes `ms` to `s`. -/
def threadEdges (p : ℕ) : List ℕ → ℕ → ℕ → List GEdge
  | [], s, w => [⟨p, s, w⟩]
  | m :: ms, s, w => ⟨p, m, w⟩ :: threadEdges m ms s w

/-- The wires of a node (qargs ++ cargs for operations). -/
def GNode.wires : GNode → List ℕ
  | .inp w => [w]
  | .outp w => [w]
  | .op _ q c _ => q ++ c

/-- Node payload lookup. -/
def Dag.node? (d : Dag) (nid : ℕ) : Option GNode :=
  (d.nodes.find? (fun p => p.1 == nid)).map (fun p => p.2)

/-- The ids `b, b+1, ..., b+n-1` handed out for `n` consecutively added
nodes. -/
def idsFrom (b : ℕ) : ℕ → List ℕ
  | 0 => []
  | n + 1 => b :: idsFrom (b + 1) n

/-- `substitute_node_with_dag(node, repl)`: replace one operation node by a
replacement circuit whose wire positions map onto the node wires; per wire
the host predecessor/successor are re-threaded through the replacement ops
touching that wire (directly to each other if the replacement has none). -/
def substituteNodeWithCircuit (d : Dag) (nid : ℕ) (ops : Circ) : Dag :=
  let ws := ((d.node? nid).map GNode.wires).getD []
  let newIds := idsFrom d.nextId ops.length
  let newNodes := List.zipWith
    (fun i (p : String × List ℕ) =>
      (i, GNode.op p.1 (p.2.map (fun j => ws.getD j 0)) [] none))
    newIds ops
  let newEdges := (idsFrom 0 ws.length).flatMap (fun j =>
    let w := ws.getD j 0
    let chain := (List.zip newIds ops).filterMap
      (fun q => if j ∈ q.2.2 then some q.1 else none)
    match (d.edges.find? (fun e => e.dst == nid && e.wire == w)).map (fun e => e.src),
          (d.edges.find? (fun e => e.src == nid && e.wire == w)).map (fun e => e.dst) with
    | some p, some s => threadEdges p chain s w
    | _, _ => [])
  { nextId := d.nextId + ops.length
  , nodes := d.nodes.filter (fun p => p.1 ≠ nid) ++ newNodes
  , edges := d.edges.filter (fun e => e.src ≠ nid ∧ e.dst ≠ nid) ++ newEdges
  , inputs := d.inputs
  , outputs := d.outputs }

/-- `predecessor_indices`: one entry per incoming edge. -/
def predecessorIndices (d : Dag) (nid : ℕ) : List ℕ :=
  d.edges.filterMap (fun e => if e.dst == nid then some e.src else none)

/-- `successor_indices`: one entry per outgoing edge. -/
def successorIndices (d : Dag) (nid : ℕ) : List ℕ :=
  d.edges.filterMap (fun e => if e.src == nid then some e.dst else none)

/-- `remove_node`: delete the node and every incident edge. -/
def removeNode (d : Dag) (nid : ℕ) : Dag :=
  { d with nodes := d.nodes.filter (fun p => p.1 ≠ nid)
         , edges := d.edges.filter (fun e => e.src ≠ nid ∧ e.dst ≠ nid) }

/-- `add_edges_from`. -/
def addEdges (d : Dag) (es : List GEdge) : Dag :=
  { d with edges := d.edges ++ es }

/-- How `ExpandControlFlow.run` can fail.  The code contains no
`EmptyBlockList` check; the only failures are raw `IndexError`s from the
`[0]`, `[-1]` and `[1]` index accesses on id lists. -/
inductive ExpandError where
  | emptyBlockList
  | indexError
deriving DecidableEq

/-- The names of the scaffold marker ops for a compound op named `name`:
global enter marker, per-block enter/exit markers around each placeholder,
global exit marker. -/
def scaffoldCirc (name : String) (k : ℕ) (blocks : List Circ) : Circ :=
  [("enter_" ++ name, List.range k)]
    ++ blocks.flatMap (fun _ =>
      [("ph_enter", List.range k), ("ph", List.range k), ("ph_exit", List.range k)])
    ++ [("exit_" ++ name, List.range k)]

/-- Substitute each placeholder with its block, recording the placeholder
boundary markers first (lines 56-61); stops at the first `IndexError`. -/
def substituteBlocks (d : Dag) (phBlocks : List (ℕ × Circ)) :
    Dag × List (ℕ × ℕ) × Option ExpandError :=
  match phBlocks with
  | [] => (d, [], none)
  | (phId, block) :: rest =>
    match (predecessorIndices d phId).head?, (successorIndices d phId).get? 1 with
    | some phEnter, some phExit =>
      let d' := substituteNodeWithCircuit d phId block
      let (d'', bs, err) := substituteBlocks d' rest
      (d'', (phEnter, phExit) :: bs, err)
    | _, _ => (d, [], some ExpandError.indexError)

/-- The fan-in/fan-out rewiring (lines 63-77): duplicate each block-enter
marker's outgoing edges from the global entry, drop the marker; duplicate
each block-exit marker's incoming edges into the global exit, drop it. -/
def rewireBoundaries (entryId exitId : ℕ) (d : Dag) (bs : List (ℕ × ℕ)) : Dag :=
  bs.foldl (fun d b =>
    let d1 := addEdges d
      (((d.edges.filter (fun e => e.src == b.1)).map (fun e => ⟨entryId, e.dst, e.wire⟩)))
    let d2 := removeNode d1 b.1
    let d3 := addEdges d2
      (((d2.edges.filter (fun e => e.dst == b.2)).map (fun e => ⟨e.src, exitId, e.wire⟩)))
    removeNode d3 b.2) d

/-- The loop-construct tail (lines 80-98): a synthetic condition node fed by
the shared exit on the loop cargs, plus one fresh classical wire looping
input → condition → entry → output. -/
def addLoopCondition (entryId exitId : ℕ) (cargs : List ℕ) (d : Dag) : Dag :=
  let condId := d.nextId
  let d1 : Dag :=
    { d with nextId := condId + 1
           , nodes := d.nodes ++ [(condId, GNode.op "kernel" [] cargs none)] }
  let d2 := addEdges d1 (cargs.map (fun c => ⟨exitId, condId, c⟩))
  let cw := (d2.inputs.map (fun p => p.1)).foldl max 0 + 1
  let inId := d2.nextId
  let outId := d2.nextId + 1
  let d3 : Dag :=
    { d2 with nextId := outId + 1
            , nodes := d2.nodes ++ [(inId, GNode.inp cw), (outId, GNode.outp cw)]
            , edges := d2.edges ++ [⟨inId, outId, cw⟩]
            , inputs := d2.inputs ++ [(cw, inId)]
            , outputs := d2.outputs ++ [(cw, outId)] }
  let d4 : Dag := { d3 with edges := d3.edges.filter (fun e => e ≠ ⟨inId, outId, cw⟩) }
  addEdges d4 [⟨inId, condId, cw⟩, ⟨condId, entryId, cw⟩, ⟨entryId, outId, cw⟩]

/-- `ExpandControlFlow.run` on one compound node; returns the (possibly
partially rewritten) graph together with the failure, if any. -/
def expandNode (d : Dag) (nid : ℕ) : Dag × Option ExpandError :=
  match d.node? nid with
  | some (GNode.op name qargs cargs (some blocks)) =>
    let k := (qargs ++ cargs).length
    let d1 := substituteNodeWithCircuit d nid (scaffoldCirc name k blocks)
    let phIds := d1.nodes.filterMap (fun p =>
      match p.2 with
      | GNode.op nm _ _ _ => if nm == "ph" then some p.1 else none
      | _ => none)
    match phIds.head?, phIds.getLast? with
    | some ph0, some phLast =>
      (match (predecessorIndices d1 ph0).head? with
       | none => (d1, some ExpandError.indexError)
       | some pe0 =>
        match (predecessorIndices d1 pe0).head? with
        | none => (d1, some ExpandError.indexError)
        | some entryId =>
          match (successorIndices d1 phLast).head? with
          | none => (d1, some ExpandError.indexError)
          | some sx0 =>
            match (successorIndices d1 sx0).head? with
            | none => (d1, some ExpandError.indexError)
            | some exitId =>
              match substituteBlocks d1 (List.zip phIds blocks) with
              | (d2, _, some err) => (d2, some err)
              | (d2, bs, none) =>
                let d3 := rewireBoundaries entryId exitId d2 bs
                if name == "for_loop" || name == "while_loop" then
                  (addLoopCondition entryId exitId cargs d3, none)
                else (d3, none))
    | _, _ => (d1, some ExpandError.indexError)
  | _ => (d, none)

/-- `ExpandControlFlow.run`: snapshot the op nodes, rewrite each compound one
in turn; a raised error aborts the remaining rewrites (the exception
propagates with the graph left in its current state). -/
def expandRun (d : Dag) : Dag × Option ExpandError :=
  let snapshot := d.nodes.filterMap (fun p =>
    match p.2 with
    | GNode.op _ _ _ (some _) => some p.1
    | _ => none)
  snapshot.foldl (fun acc nid =>
    match acc.2 with
    | some _ => acc
    | none => expandNode acc.1 nid) (d, none)

/-- The names of the operation nodes of a graph, in node-list order. -/
def opNames (d : Dag) : List String :=
  d.nodes.filterMap (fun p =>
    match p.2 with
    | GNode.op nm _ _ _ => some nm
    | _ => none)

/-- An if/else node with consequent ops named `ns` (each spanning both
wires) and an empty alternative, as the only operation of a 2-qubit host. -/
def hostIfElse (ns : List String) : Dag :=
  applyOperationBack "ifelse" [0, 1] []
    (some [ns.map (fun nm => (nm, [0, 1]))]) (emptyOn [0, 1])

/-- A compound node with zero nested blocks (`CaseOp` with an empty
`pred_fn_list`) as the only operation of a 2-qubit host. -/
def hostZeroBlocks (name : String) : Dag :=
  applyOperationBack name [0, 1] [] (some []) (emptyOn [0, 1])


/-- The consequent block of `hostIfElse`: ops over both wire positions. -/
def blkOf (ns : List String) : Circ := ns.map (fun nm => (nm, [0, 1]))

/-- The host after the scaffold substitution (step 2 of the lowering): a
chain `in → enter → ph_enter → ph → ph_exit → exit → out` on both wires.
Independent of the consequent. -/
def scaffoldedIfElseHost : Dag :=
  { nextId := 10
  , nodes := [(0, GNode.inp 0), (1, GNode.inp 1), (2, GNode.outp 0), (3, GNode.outp 1),
      (5, GNode.op "enter_ifelse" [0, 1] [] none),
      (6, GNode.op "ph_enter" [0, 1] [] none),
      (7, GNode.op "ph" [0, 1] [] none),
      (8, GNode.op "ph_exit" [0, 1] [] none),
      (9, GNode.op "exit_ifelse" [0, 1] [] none)]
  , edges := [⟨0, 5, 0⟩, ⟨5, 6, 0⟩, ⟨6, 7, 0⟩, ⟨7, 8, 0⟩, ⟨8, 9, 0⟩, ⟨9, 2, 0⟩,
      ⟨1, 5, 1⟩, ⟨5, 6, 1⟩, ⟨6, 7, 1⟩, ⟨7, 8, 1⟩, ⟨8, 9, 1⟩, ⟨9, 3, 1⟩]
  , inputs := [(0, 0), (1, 1)]
  , outputs := [(0, 2), (1, 3)] }

/-- The nodes created for the consequent body, ids from `b`. -/
def blockBodyNodes (b : ℕ) (ns : List String) : List (ℕ × GNode) :=
  List.zipWith (fun i nm => (i, GNode.op nm [0, 1] [] none)) (idsFrom b ns.length) ns

/-- The host after the placeholder node 7 is substituted by the consequent
body (step 3), before the fan-in/fan-out rewiring. -/
def loweredBodyDag (ns : List String) : Dag :=
  { nextId := 10 + ns.length
  , nodes := [(0, GNode.inp 0), (1, GNode.inp 1), (2, GNode.outp 0), (3, GNode.outp 1),
      (5, GNode.op "enter_ifelse" [0, 1] [] none),
      (6, GNode.op "ph_enter" [0, 1] [] none),
      (8, GNode.op "ph_exit" [0, 1] [] none),
      (9, GNode.op "exit_ifelse" [0, 1] [] none)]
      ++ blockBodyNodes 10 ns
  , edges := [⟨0, 5, 0⟩, ⟨5, 6, 0⟩, ⟨8, 9, 0⟩, ⟨9, 2, 0⟩,
      ⟨1, 5, 1⟩, ⟨5, 6, 1⟩, ⟨8, 9, 1⟩, ⟨9, 3, 1⟩]
      ++ threadEdges 6 (idsFrom 10 ns.length) 8 0
      ++ threadEdges 6 (idsFrom 10 ns.length) 8 1
  , inputs := [(0, 0), (1, 1)]
  , outputs := [(0, 2), (1, 3)] }

/-- The consecutive-pair edges of a node chain on one wire. -/
def innerPairs (w : ℕ) (ids : List ℕ) : List GEdge :=
  (List.zip ids ids.tail).map (fun p => ⟨p.1, p.2, w⟩)

/-- The graph `ExpandControlFlow.run` returns for `hostIfElse ns`: the
surviving `enter_ifelse`/`exit_ifelse` markers bracket the consequent chain
on both wires; `ph`, `ph_enter` and `ph_exit` are gone. -/
def expectedLoweredIfElse (ns : List String) : Dag :=
  { nextId := 10 + ns.length
  , nodes := [(0, GNode.inp 0), (1, GNode.inp 1), (2, GNode.outp 0), (3, GNode.outp 1),
      (5, GNode.op "enter_ifelse" [0, 1] [] none),
      (9, GNode.op "exit_ifelse" [0, 1] [] none)]
      ++ blockBodyNodes 10 ns
  , edges := [⟨0, 5, 0⟩, ⟨9, 2, 0⟩, ⟨1, 5, 1⟩, ⟨9, 3, 1⟩]
      ++ (match idsFrom 10 ns.length with
          | [] => [⟨5, 9, 0⟩, ⟨5, 9, 1⟩]
          | b0 :: rest =>
              innerPairs 0 (b0 :: rest) ++ innerPairs 1 (b0 :: rest)
              ++ ([⟨5, b0, 0⟩, ⟨5, b0, 1⟩]
                  ++ [⟨rest.getLastD b0, 9, 0⟩, ⟨rest.getLastD b0, 9, 1⟩]))
  , inputs := [(0, 0), (1, 1)]
  , outputs := [(0, 2), (1, 3)] }

/-- C8, counterexample.  Lowering a graph whose only operation is a compound
control-flow node with zero nested blocks (a `CaseOp` with empty
`pred_fn_list`) does not fail with a typed `EmptyBlockList`: it fails with a
raw `IndexError` (`ph_node_ids[0]` on an empty list), and only after
`substitute_node_with_dag` has already replaced the node with the
enter/exit scaffold — the graph is left partially mutated. -/
theorem c8_counterexample :
    (expandRun (hostZeroBlocks "case")).2 = some ExpandError.indexError ∧
    (expandRun (hostZeroBlocks "case")).2 ≠ some ExpandError.emptyBlockList ∧
    (expandRun (hostZeroBlocks "case")).1 ≠ hostZeroBlocks "case" ∧
    "enter_case" ∈ opNames (expandRun (hostZeroBlocks "case")).1 := by
  refine ⟨?_, ?_, ?_, ?_⟩ <;> decide

/-- C8, amended.  For each compound control-flow kind, a node with zero
nested blocks makes the pass fail with an untyped index-out-of-range error
(there is no `EmptyBlockList` check), after the scaffold substitution has
already mutated the graph: the returned graph differs from the input and
contains the freshly created enter marker. -/
theorem c8_zero_blocks (name : String)
    (h : name ∈ ["case", "ifelse", "for_loop", "while_loop"]) :
    (expandRun (hostZeroBlocks name)).2 = some ExpandError.indexError ∧
    (expandRun (hostZeroBlocks name)).2 ≠ some ExpandError.emptyBlockList ∧
    (expandRun (hostZeroBlocks name)).1 ≠ hostZeroBlocks name := by
  simp only [List.mem_cons, List.not_mem_nil, or_false] at h
  rcases h with h | h | h | h <;> subst h <;> refine ⟨?_, ?_, ?_⟩ <;> decide

/-- C8, witness for the amended theorem at the `CaseOp` instance. -/
theorem c8_zero_blocks_witness :
    (("case" : String) ∈ ["case", "ifelse", "for_loop", "while_loop"]) ∧
    (expandRun (hostZeroBlocks "case")).2 = some ExpandError.indexError :=
  ⟨by decide, (c8_zero_blocks "case" (by decide)).1⟩

lemma idsFrom_length (b n : ℕ) : (idsFrom b n).length = n := by
  induction n generalizing b with
  | zero => rfl
  | succ k ih => simp [idsFrom, ih]

lemma mem_idsFrom {m : ℕ} : ∀ {b n : ℕ}, m ∈ idsFrom b n ↔ b ≤ m ∧ m < b + n := by
  intro b n
  induction n generalizing b with
  | zero => simp [idsFrom]
  | succ k ih => simp [idsFrom, ih]; omega

lemma blkOf_cons (nm : String) (tl : List String) :
    blkOf (nm :: tl) = (nm, [0, 1]) :: blkOf tl := rfl

lemma chain_filterMap (j : ℕ) (hj : j ∈ ([0, 1] : List ℕ)) :
    ∀ (b : ℕ) (ns : List String),
      (List.zip (idsFrom b (blkOf ns).length) (blkOf ns)).filterMap
        (fun q => if j ∈ q.2.2 then some q.1 else none) = idsFrom b ns.length := by
  intro b ns
  induction ns generalizing b with
  | nil => simp [blkOf, idsFrom]
  | cons nm tl ih =>
      rw [blkOf_cons]
      simp only [List.length_cons, idsFrom, List.zip_cons_cons, List.filterMap_cons]
      rw [if_pos hj]
      rw [ih (b + 1)]

lemma bodyNodes_zipWith : ∀ (b : ℕ) (ns : List String),
    List.zipWith
      (fun i (p : String × List ℕ) =>
        (i, GNode.op p.1 (p.2.map (fun j => ([0, 1] : List ℕ).getD j 0)) [] none))
      (idsFrom b (blkOf ns).length) (blkOf ns) = blockBodyNodes b ns := by
  intro b ns
  induction ns generalizing b with
  | nil => rfl
  | cons nm tl ih =>
      rw [blkOf_cons]
      simp only [List.length_cons, idsFrom, List.zipWith_cons_cons]
      rw [ih (b + 1)]
      rfl

lemma bodyNodes_cons (b : ℕ) (nm : String) (tl : List String) :
    blockBodyNodes b (nm :: tl) = (b, GNode.op nm [0, 1] [] none) :: blockBodyNodes (b + 1) tl := by
  simp [blockBodyNodes, idsFrom]

lemma bodyNodes_filter_ne (q : ℕ) : ∀ (b : ℕ) (ns : List String), q < b →
    (blockBodyNodes b ns).filter (fun p => p.1 ≠ q) = blockBodyNodes b ns := by
  intro b ns
  induction ns generalizing b with
  | nil => intro _; rfl
  | cons nm tl ih =>
      intro hq
      rw [bodyNodes_cons, List.filter_cons]
      rw [if_pos (by simpa using by omega)]
      rw [ih (b + 1) (by omega)]

lemma opNames_bodyNodes : ∀ (b : ℕ) (ns : List String),
    (blockBodyNodes b ns).filterMap (fun p =>
      match p.2 with
      | GNode.op nm _ _ _ => some nm
      | _ => none) = ns := by
  intro b ns
  induction ns generalizing b with
  | nil => rfl
  | cons nm tl ih =>
      rw [bodyNodes_cons, List.filterMap_cons]
      simp only
      rw [ih (b + 1)]

lemma thread_filter_src_ne (q : ℕ) : ∀ (p : ℕ) (mids : List ℕ) (s w : ℕ), q ≠ p → q ∉ mids →
    (threadEdges p mids s w).filter (fun e => e.src == q) = [] := by
  intro p mids
  induction mids generalizing p with
  | nil =>
      intro s w hp _
      simp [threadEdges, List.filter_cons, Ne.symm hp]
  | cons m ms ih =>
      intro s w hp hm
      simp only [threadEdges, List.filter_cons]
      rw [if_neg (by simpa using Ne.symm hp)]
      exact ih m s w (fun h => hm (h ▸ List.mem_cons_self m ms))
        (fun h => hm (List.mem_cons_of_mem m h))

lemma thread_filter_src_self (mids : List ℕ) (w : ℕ) (h : ∀ m ∈ mids, 10 ≤ m) :
    (threadEdges 6 mids 8 w).filter (fun e => e.src == 6) = [⟨6, mids.headD 8, w⟩] := by
  cases mids with
  | nil => rfl
  | cons m ms =>
      simp only [threadEdges, List.filter_cons, List.headD_cons]
      rw [if_pos (by simp)]
      rw [thread_filter_src_ne 6 m ms 8 w
        (by have := h m (List.mem_cons_self m ms); omega)
        (fun hm => by have := h 6 (List.mem_cons_of_mem m hm); omega)]

lemma thread_filter_dst_last : ∀ (p : ℕ) (mids : List ℕ) (w : ℕ),
    (∀ m ∈ mids, 10 ≤ m) → 10 ≤ p →
    (threadEdges p mids 8 w).filter (fun e => e.dst == 8) = [⟨mids.getLastD p, 8, w⟩] := by
  intro p mids
  induction mids generalizing p with
  | nil => intro w _ _; rfl
  | cons m ms ih =>
      intro w hm hp
      simp only [threadEdges, List.filter_cons, List.getLastD_cons]
      rw [if_neg (by simpa using by have := hm m (List.mem_cons_self m ms); omega)]
      exact ih m w (fun x hx => hm x (List.mem_cons_of_mem m hx))
        (hm m (List.mem_cons_self m ms))

lemma thread_filter_noop (q : ℕ) : ∀ (p : ℕ) (mids : List ℕ) (s w : ℕ),
    q ≠ p → q ∉ mids → q ≠ s →
    (threadEdges p mids s w).filter (fun e => e.src ≠ q ∧ e.dst ≠ q) = threadEdges p mids s w := by
  intro p mids
  induction mids generalizing p with
  | nil =>
      intro s w hp hm hs
      simp [threadEdges, List.filter_cons, Ne.symm hp, Ne.symm hs]
  | cons m ms ih =>
      intro s w hp hm hs
      simp only [threadEdges, List.filter_cons]
      rw [if_pos (by simp; exact ⟨Ne.symm hp, Ne.symm (fun h => hm (h ▸ List.mem_cons_self m ms))⟩)]
      rw [ih m s w (fun h => hm (h ▸ List.mem_cons_self m ms))
        (fun h => hm (List.mem_cons_of_mem m h)) hs]

lemma thread_filter_remove_first (m : ℕ) (ms : List ℕ) (w : ℕ)
    (hm : 10 ≤ m) (hms : ∀ x ∈ ms, 10 ≤ x) :
    (threadEdges 6 (m :: ms) 8 w).filter (fun e => e.src ≠ 6 ∧ e.dst ≠ 6)
      = threadEdges m ms 8 w := by
  simp only [threadEdges, List.filter_cons]
  rw [if_neg (by simp)]
  exact thread_filter_noop 6 m ms 8 w (by omega)
    (fun h => by have := hms 6 h; omega) (by omega)

lemma thread_filter_remove_last : ∀ (m : ℕ) (ms : List ℕ) (w : ℕ),
    10 ≤ m → (∀ x ∈ ms, 10 ≤ x) →
    (threadEdges m ms 8 w).filter (fun e => e.src ≠ 8 ∧ e.dst ≠ 8) = innerPairs w (m :: ms) := by
  intro m ms
  induction ms generalizing m with
  | nil =>
      intro w hm _
      simp [threadEdges, innerPairs, List.filter_cons]
  | cons m' ms' ih =>
      intro w hm hms
      simp only [threadEdges, List.filter_cons]
      rw [if_pos (by
        simp only [decide_eq_true_eq]
        constructor
        · omega
        · have := hms m' (List.mem_cons_self m' ms'); omega)]
      rw [ih m' w (hms m' (List.mem_cons_self m' ms'))
        (fun x hx => hms x (List.mem_cons_of_mem m' hx))]
      simp [innerPairs]

lemma scaffold_substitute (ns : List String) :
    substituteNodeWithCircuit (hostIfElse ns) 4 (scaffoldCirc "ifelse" 2 [blkOf ns])
      = scaffoldedIfElseHost := rfl

lemma substitute_body (ns : List String) :
    substituteNodeWithCircuit scaffoldedIfElseHost 7 (blkOf ns) = loweredBodyDag ns := by
  have hws : ((scaffoldedIfElseHost.node? 7).map GNode.wires).getD [] = [0, 1] := rfl
  have hlen : (blkOf ns).length = ns.length := List.length_map _ _
  have hchain0 : (List.filterMap (fun q => if 0 ∈ q.2.2 then some q.1 else none)
      ((idsFrom 10 ns.length).zip (blkOf ns))) = idsFrom 10 ns.length := by
    have h := chain_filterMap 0 (by decide) 10 ns
    rwa [hlen] at h
  have hchain1 : (List.filterMap (fun q => if 1 ∈ q.2.2 then some q.1 else none)
      ((idsFrom 10 ns.length).zip (blkOf ns))) = idsFrom 10 ns.length := by
    have h := chain_filterMap 1 (by decide) 10 ns
    rwa [hlen] at h
  have hzip : List.zipWith (fun i (p : String × List ℕ) =>
      (i, GNode.op p.1 (List.map (fun j => ([0, 1] : List ℕ).getD j 0) p.2) [] none))
      (idsFrom 10 ns.length) (blkOf ns) = blockBodyNodes 10 ns := by
    have h := bodyNodes_zipWith 10 ns
    rwa [hlen] at h
  simp only [substituteNodeWithCircuit, loweredBodyDag, hws]
  rw [show scaffoldedIfElseHost.nextId = 10 from rfl, hlen]
  rw [show idsFrom 0 ([0, 1] : List ℕ).length = [0, 1] from rfl]
  rw [hzip]
  simp only [List.flatMap_cons, List.flatMap_nil]
  rw [show ([0, 1] : List ℕ).getD 0 0 = 0 from rfl, show ([0, 1] : List ℕ).getD 1 0 = 1 from rfl]
  rw [show (Option.map (fun e => e.src)
      (List.find? (fun e => e.dst == 7 && e.wire == 0) scaffoldedIfElseHost.edges)) = some 6 from rfl]
  rw [show (Option.map (fun e => e.dst)
      (List.find? (fun e => e.src == 7 && e.wire == 0) scaffoldedIfElseHost.edges)) = some 8 from rfl]
  rw [show (Option.map (fun e => e.src)
      (List.find? (fun e => e.dst == 7 && e.wire == 1) scaffoldedIfElseHost.edges)) = some 6 from rfl]
  rw [show (Option.map (fun e => e.dst)
      (List.find? (fun e => e.src == 7 && e.wire == 1) scaffoldedIfElseHost.edges)) = some 8 from rfl]
  rw [hchain0, hchain1]
  simp only [List.append_nil, List.append_assoc]
  rfl

lemma getLastD_ge (l : List ℕ) (d : ℕ) (hd : 10 ≤ d) (h : ∀ x ∈ l, 10 ≤ x) :
    10 ≤ l.getLastD d := by
  induction l generalizing d with
  | nil => exact hd
  | cons x xs ih =>
      rw [List.getLastD_cons]
      exact ih x (h x (List.mem_cons_self x xs)) (fun y hy => h y (List.mem_cons_of_mem x hy))

lemma rewire_ifelse (ns : List String) :
    rewireBoundaries 5 9 (loweredBodyDag ns) [(6, 8)] = expectedLoweredIfElse ns := by
  cases ns with
  | nil => decide
  | cons nm tl =>
    have hrest : ∀ m ∈ idsFrom 11 tl.length, 10 ≤ m := by
      intro m hm; have := mem_idsFrom.mp hm; omega
    have hmids : ∀ m ∈ 10 :: idsFrom 11 tl.length, 10 ≤ m := by
      intro m hm
      rcases List.mem_cons.mp hm with h | h
      · omega
      · exact hrest m h
    have hL : 10 ≤ (idsFrom 11 tl.length).getLastD 10 := getLastD_ge _ _ (by omega) hrest
    have hmids_eq : idsFrom 10 (nm :: tl).length = 10 :: idsFrom 11 tl.length := rfl
    have hsrc6 : List.filter (fun e => e.src == 6) (loweredBodyDag (nm :: tl)).edges
        = [⟨6, 10, 0⟩, ⟨6, 10, 1⟩] := by
      simp only [loweredBodyDag, hmids_eq]
      rw [List.filter_append, List.filter_append]
      rw [show List.filter (fun e => e.src == 6)
        ([⟨0, 5, 0⟩, ⟨5, 6, 0⟩, ⟨8, 9, 0⟩, ⟨9, 2, 0⟩,
          ⟨1, 5, 1⟩, ⟨5, 6, 1⟩, ⟨8, 9, 1⟩, ⟨9, 3, 1⟩] : List GEdge) = [] from rfl]
      rw [thread_filter_src_self (10 :: idsFrom 11 tl.length) 0 hmids]
      rw [thread_filter_src_self (10 :: idsFrom 11 tl.length) 1 hmids]
      rfl
    have h8 : (idsFrom 11 tl.length).getLastD 10 ≠ 8 := by omega
    have hA2f0 : List.filter (fun e => e.src ≠ 8 ∧ e.dst ≠ 8)
        [(⟨(idsFrom 11 tl.length).getLastD 10, 9, 0⟩ : GEdge)]
        = [⟨(idsFrom 11 tl.length).getLastD 10, 9, 0⟩] := by
      simp only [List.filter_cons, List.filter_nil]
      rw [if_pos (by simp only [decide_eq_true_eq]; exact ⟨h8, by decide⟩)]
    have hA2f1 : List.filter (fun e => e.src ≠ 8 ∧ e.dst ≠ 8)
        [(⟨(idsFrom 11 tl.length).getLastD 10, 9, 1⟩ : GEdge)]
        = [⟨(idsFrom 11 tl.length).getLastD 10, 9, 1⟩] := by
      simp only [List.filter_cons, List.filter_nil]
      rw [if_pos (by simp only [decide_eq_true_eq]; exact ⟨h8, by decide⟩)]
    simp only [rewireBoundaries, List.foldl_cons, List.foldl_nil]
    rw [hsrc6]
    simp only [List.map_cons, List.map_nil]
    simp only [addEdges, removeNode, loweredBodyDag]
    rw [hmids_eq]
    simp only [List.filter_append]
    rw [show List.filter (fun e => e.src ≠ 6 ∧ e.dst ≠ 6)
      ([⟨0, 5, 0⟩, ⟨5, 6, 0⟩, ⟨8, 9, 0⟩, ⟨9, 2, 0⟩,
        ⟨1, 5, 1⟩, ⟨5, 6, 1⟩, ⟨8, 9, 1⟩, ⟨9, 3, 1⟩] : List GEdge)
      = [⟨0, 5, 0⟩, ⟨8, 9, 0⟩, ⟨9, 2, 0⟩, ⟨1, 5, 1⟩, ⟨8, 9, 1⟩, ⟨9, 3, 1⟩] from rfl]
    rw [thread_filter_remove_first 10 (idsFrom 11 tl.length) 0 (by omega) hrest]
    rw [thread_filter_remove_first 10 (idsFrom 11 tl.length) 1 (by omega) hrest]
    rw [show List.filter (fun e => e.src ≠ 6 ∧ e.dst ≠ 6)
      ([⟨5, 10, 0⟩, ⟨5, 10, 1⟩] : List GEdge) = [⟨5, 10, 0⟩, ⟨5, 10, 1⟩] from rfl]
    rw [show List.filter (fun e => e.dst == 8)
      ([⟨0, 5, 0⟩, ⟨8, 9, 0⟩, ⟨9, 2, 0⟩, ⟨1, 5, 1⟩, ⟨8, 9, 1⟩, ⟨9, 3, 1⟩] : List GEdge)
      = [] from rfl]
    rw [thread_filter_dst_last 10 (idsFrom 11 tl.length) 0 hrest (by omega)]
    rw [thread_filter_dst_last 10 (idsFrom 11 tl.length) 1 hrest (by omega)]
    rw [show List.filter (fun e => e.dst == 8)
      ([⟨5, 10, 0⟩, ⟨5, 10, 1⟩] : List GEdge) = [] from rfl]
    simp only [List.map_append, List.map_cons, List.map_nil, List.nil_append,
      List.append_nil]
    simp only [List.filter_append]
    rw [show List.filter (fun e => e.src ≠ 8 ∧ e.dst ≠ 8)
      ([⟨0, 5, 0⟩, ⟨8, 9, 0⟩, ⟨9, 2, 0⟩, ⟨1, 5, 1⟩, ⟨8, 9, 1⟩, ⟨9, 3, 1⟩] : List GEdge)
      = [⟨0, 5, 0⟩, ⟨9, 2, 0⟩, ⟨1, 5, 1⟩, ⟨9, 3, 1⟩] from rfl]
    rw [thread_filter_remove_last 10 (idsFrom 11 tl.length) 0 (by omega) hrest]
    rw [thread_filter_remove_last 10 (idsFrom 11 tl.length) 1 (by omega) hrest]
    rw [show List.filter (fun e => e.src ≠ 8 ∧ e.dst ≠ 8)
      ([⟨5, 10, 0⟩, ⟨5, 10, 1⟩] : List GEdge) = [⟨5, 10, 0⟩, ⟨5, 10, 1⟩] from rfl]
    rw [hA2f0, hA2f1]
    rw [show List.filter (fun p => p.1 ≠ 6)
      ([(0, GNode.inp 0), (1, GNode.inp 1), (2, GNode.outp 0), (3, GNode.outp 1),
        (5, GNode.op "enter_ifelse" [0, 1] [] none),
        (6, GNode.op "ph_enter" [0, 1] [] none),
        (8, GNode.op "ph_exit" [0, 1] [] none),
        (9, GNode.op "exit_ifelse" [0, 1] [] none)] : List (ℕ × GNode))
      = [(0, GNode.inp 0), (1, GNode.inp 1), (2, GNode.outp 0), (3, GNode.outp 1),
        (5, GNode.op "enter_ifelse" [0, 1] [] none),
        (8, GNode.op "ph_exit" [0, 1] [] none),
        (9, GNode.op "exit_ifelse" [0, 1] [] none)] from rfl]
    rw [bodyNodes_filter_ne 6 10 (nm :: tl) (by omega)]
    rw [show List.filter (fun p => p.1 ≠ 8)
      ([(0, GNode.inp 0), (1, GNode.inp 1), (2, GNode.outp 0), (3, GNode.outp 1),
        (5, GNode.op "enter_ifelse" [0, 1] [] none),
        (8, GNode.op "ph_exit" [0, 1] [] none),
        (9, GNode.op "exit_ifelse" [0, 1] [] none)] : List (ℕ × GNode))
      = [(0, GNode.inp 0), (1, GNode.inp 1), (2, GNode.outp 0), (3, GNode.outp 1),
        (5, GNode.op "enter_ifelse" [0, 1] [] none),
        (9, GNode.op "exit_ifelse" [0, 1] [] none)] from rfl]
    rw [bodyNodes_filter_ne 8 10 (nm :: tl) (by omega)]
    simp only [expectedLoweredIfElse]
    rw [hmids_eq]
    simp only [List.append_assoc, List.nil_append, List.append_nil,
      List.singleton_append]

lemma expandRun_hostIfElse (ns : List String) :
    expandRun (hostIfElse ns) = (expectedLoweredIfElse ns, none) := by
  have key : expandRun (hostIfElse ns)
      = (rewireBoundaries 5 9
          (substituteNodeWithCircuit scaffoldedIfElseHost 7 (blkOf ns)) [(6, 8)], none) := rfl
  rw [key, substitute_body, rewire_ifelse]

/-- C3, counterexample.  Lowering an if/else (with empty alternative, one
consequent op) leaves the transient `enter_ifelse` and `exit_ifelse` marker
operations in the returned graph: the claim that no enter/exit marker
survives lowering is false. -/
theorem c3_counterexample :
    "enter_ifelse" ∈ opNames (expandRun (hostIfElse ["h"])).1 ∧
    "exit_ifelse" ∈ opNames (expandRun (hostIfElse ["h"])).1 := by
  constructor <;> decide

/-- C3, amended.  Lowering an if/else with an empty alternative removes the
placeholder (`ph`) and block-boundary (`ph_enter`, `ph_exit`) markers, but
the shared `enter_ifelse` and `exit_ifelse` markers survive as the
fan-in/fan-out junctions; the operation nodes of the returned graph are
exactly the consequent's operations plus those two markers, and the
consequent chain runs from the enter marker to the exit marker on every wire
(the `expectedLoweredIfElse` shape). -/
theorem c3_lowering_ifelse (ns : List String)
    (h : ∀ nm ∈ ns, nm ≠ "ph" ∧ nm ≠ "ph_enter" ∧ nm ≠ "ph_exit") :
    expandRun (hostIfElse ns) = (expectedLoweredIfElse ns, none) ∧
    opNames (expectedLoweredIfElse ns) = "enter_ifelse" :: "exit_ifelse" :: ns ∧
    "ph" ∉ opNames (expectedLoweredIfElse ns) ∧
    "ph_enter" ∉ opNames (expectedLoweredIfElse ns) ∧
    "ph_exit" ∉ opNames (expectedLoweredIfElse ns) := by
  have hnames : opNames (expectedLoweredIfElse ns)
      = "enter_ifelse" :: "exit_ifelse" :: ns := by
    simp only [opNames, expectedLoweredIfElse, List.filterMap_append]
    rw [opNames_bodyNodes]
    rfl
  refine ⟨expandRun_hostIfElse ns, hnames, ?_, ?_, ?_⟩
  · rw [hnames]
    intro hm
    rcases List.mem_cons.mp hm with h1 | hm
    · exact absurd h1 (by decide)
    rcases List.mem_cons.mp hm with h1 | hm
    · exact absurd h1 (by decide)
    · exact (h _ hm).1 rfl
  · rw [hnames]
    intro hm
    rcases List.mem_cons.mp hm with h1 | hm
    · exact absurd h1 (by decide)
    rcases List.mem_cons.mp hm with h1 | hm
    · exact absurd h1 (by decide)
    · exact (h _ hm).2.1 rfl
  · rw [hnames]
    intro hm
    rcases List.mem_cons.mp hm with h1 | hm
    · exact absurd h1 (by decide)
    rcases List.mem_cons.mp hm with h1 | hm
    · exact absurd h1 (by decide)
    · exact (h _ hm).2.2 rfl

/-- C3, witness for the amended theorem at a two-op consequent. -/
theorem c3_lowering_ifelse_witness :
    (∀ nm ∈ ["h", "cx"], nm ≠ "ph" ∧ nm ≠ "ph_enter" ∧ nm ≠ "ph_exit") ∧
    expandRun (hostIfElse ["h", "cx"]) = (expectedLoweredIfElse ["h", "cx"], none) :=
  ⟨by decide, (c3_lowering_ifelse ["h", "cx"] (by decide)).1⟩

/-! ## CombineAdjacentDelays: the sweep over delay begin/end events

`CombineAdjacentDelays.run` builds one event list from
`property_set['node_start_time']` — for every delay node with nonzero start,
end strictly before the circuit duration and duration above the joinable
threshold 200, a `begin` event at its start and an `end` event at its end —
sorts it by time only (Python `sorted` is stable), then sweeps it over a list
of open intervals.  Adjacency of an event node to an open interval compares
the coupling distance of the event node's first qubit (`edge_node.qargs[0]`)
with every qubit of every contributing node.  The coupling map distance is an
external collaborator (`dist`).  Python set objects (`joinable_delay_nodes`,
`added_delay_ids`, `seen_replacement_ids`) are used only for membership
tests, never iterated, so no set-iteration order enters the model. -/

/-- A delay node as seen by the merger: identity, op name, qargs (physical
indices) and duration. -/
structure DNode where
  nid : ℕ
  name : String
  qargs : List ℕ
  duration : ℤ
deriving DecidableEq

/-- Event kind of one delay-interval boundary. -/
inductive EvKind where
  | evBegin
  | evEnd
deriving DecidableEq

/-- One entry of `sorted_delay_edges`. -/
structure SweepEvent where
  kind : EvKind
  time : ℤ
  node : DNode
deriving DecidableEq

/-- An open interval: the accumulated delay op's qubit count, the interval
start time and the contributing delay nodes. -/
structure OpenIv where
  numQubits : ℕ
  start : ℤ
  nodes : List DNode
deriving DecidableEq

/-- A closed interval (`closed_delays` entry): op qubit count, time span and
contributing nodes. -/
structure ClosedIv where
  numQubits : ℕ
  start : ℤ
  stop : ℤ
  nodes : List DNode
deriving DecidableEq

/-- The sweep's mutable state: `open_delays` and `closed_delays`. -/
structure SweepState where
  openDelays : List OpenIv
  closedDelays : List ClosedIv
deriving DecidableEq

/-- The only sweep failure: `raise Exception("closing edge w/o an open delay?")`,
the failure the spec names `UnmatchedDelayEnd`. -/
inductive SweepError where
  | unmatchedDelayEnd
deriving DecidableEq

/-- `_open_delay`: append a fresh interval over the given nodes. -/
def openDelay (st : SweepState) (start : ℤ) (nodes : List DNode) : SweepState :=
  { st with openDelays := st.openDelays ++ [⟨nodes.length, start, nodes⟩] }

/-- `_close_delay`: drop the interval from the open list, record it if its
span is nonzero and, when closed by an `end` event on one node out of
several, immediately reopen over the remaining nodes. -/
def closeDelay (st : SweepState) (iv : OpenIv) (endTime : ℤ) (closing : Option DNode) :
    SweepState :=
  let base : SweepState :=
    { openDelays := st.openDelays.erase iv
    , closedDelays :=
        if iv.start ≠ endTime
        then st.closedDelays ++ [⟨iv.numQubits, iv.start, endTime, iv.nodes⟩]
        else st.closedDelays }
  match closing with
  | some cnode =>
      if 1 < iv.nodes.length then
        openDelay base endTime (iv.nodes.filter (fun x => x ≠ cnode))
      else base
  | none => base

/-- `_combine_delays`: close every adjacent interval at the begin time and
open one interval spanning the new node plus all their nodes. -/
def combineDelays (st : SweepState) (oldNode : DNode) (start : ℤ)
    (delays : List OpenIv) : SweepState :=
  openDelay (delays.foldl (fun s iv => closeDelay s iv start none) st) start
    ([oldNode] ++ delays.flatMap (fun iv => iv.nodes))

/-- The open intervals within coupling distance ≤ 1 of the event node's
first qubit (`adjacent_open_delays`). -/
def adjacentOpens (dist : ℕ → ℕ → ℕ) (st : SweepState) (nd : DNode) : List OpenIv :=
  st.openDelays.filter (fun iv =>
    iv.nodes.any (fun x => x.qargs.any (fun q => dist (nd.qargs.headD 0) q ≤ 1)))

/-- One sweep step (the body of the `for edge_type, edge_time, edge_node`
loop, lines 93-119). -/
def sweepStep (dist : ℕ → ℕ → ℕ) (st : SweepState) (ev : SweepEvent) :
    Except SweepError SweepState :=
  let adj := adjacentOpens dist st ev.node
  match ev.kind with
  | EvKind.evBegin =>
      if adj.isEmpty then Except.ok (openDelay st ev.time [ev.node])
      else Except.ok (combineDelays st ev.node ev.time adj)
  | EvKind.evEnd =>
      match adj with
      | [iv] => Except.ok (closeDelay st iv ev.time (some ev.node))
      | _ => Except.error SweepError.unmatchedDelayEnd

/-- The full sweep from the empty state. -/
def runSweep (dist : ℕ → ℕ → ℕ) (evs : List SweepEvent) :
    Except SweepError SweepState :=
  evs.foldlM (sweepStep dist) ⟨[], []⟩

/-- Coupling distance of a linear topology `0 - 1 - 2 - ...`. -/
def distLine (a b : ℕ) : ℕ := max a b - min a b

/-- The eligible-delay event list (`sorted_delay_edges`): a begin and an end
event per joinable delay entry of the property set, stably sorted by time. -/
def delayEdges (dagDuration : ℤ) (pset : List (DNode × ℤ)) : List SweepEvent :=
  (pset.flatMap (fun p =>
    if p.1.name == "delay" && !(p.2 == 0) && p.2 + p.1.duration < dagDuration
        && 200 < p.1.duration
    then [⟨EvKind.evBegin, p.2, p.1⟩, ⟨EvKind.evEnd, p.2 + p.1.duration, p.1⟩]
    else [])).insertionSort (fun a b => a.time ≤ b.time)

instance {e a : Type} [DecidableEq e] [DecidableEq a] : DecidableEq (Except e a) := fun x y =>
  match x, y with
  | Except.ok v, Except.ok w =>
      if h : v = w then isTrue (by rw [h]) else isFalse (fun hc => h (Except.ok.inj hc))
  | Except.error v, Except.error w =>
      if h : v = w then isTrue (by rw [h]) else isFalse (fun hc => h (Except.error.inj hc))
  | Except.ok _, Except.error _ => isFalse (fun hc => Except.noConfusion hc)
  | Except.error _, Except.ok _ => isFalse (fun hc => Except.noConfusion hc)

/-- A 1-qubit delay on qubit 0, scheduled at t=10 for 300 units. -/
def nodeP : DNode := ⟨0, "delay", [0], 300⟩

/-- A 2-qubit delay spanning qubits 2 and 1 (first qarg 2), scheduled at
t=20 for 300 units. -/
def nodeM : DNode := ⟨1, "delay", [2, 1], 300⟩

/-- The sorted event list the merger builds for `nodeP` and `nodeM` in a
circuit of duration 400. -/
def c4Events : List SweepEvent :=
  [⟨EvKind.evBegin, 10, nodeP⟩, ⟨EvKind.evBegin, 20, nodeM⟩,
   ⟨EvKind.evEnd, 310, nodeP⟩, ⟨EvKind.evEnd, 320, nodeM⟩]

/-- C4, counterexample.  On a linear coupling map 0-1-2, delays `nodeP` (on
qubit 0) and `nodeM` (on qubits 2,1) never merge (distance(2, 0) = 2 at
`nodeM`'s begin), so at `nodeP`'s end event exactly one open interval
contains `nodeP`; the claim then demands that interval be closed.  The code
instead selects intervals by coupling adjacency of `nodeP`'s first qubit —
`nodeM`'s interval is also adjacent via qubit 1 — finds two and raises, so
the pass fails although exactly one open interval contains the node. -/
theorem c4_counterexample :
    delayEdges 400 [(nodeP, 10), (nodeM, 20)] = c4Events ∧
    runSweep distLine (c4Events.take 2)
      = Except.ok ⟨[⟨1, 10, [nodeP]⟩, ⟨1, 20, [nodeM]⟩], []⟩ ∧
    ((⟨[⟨1, 10, [nodeP]⟩, ⟨1, 20, [nodeM]⟩], []⟩ : SweepState).openDelays.filter
        (fun iv => nodeP ∈ iv.nodes)).length = 1 ∧
    runSweep distLine c4Events = Except.error SweepError.unmatchedDelayEnd := by
  refine ⟨?_, ?_, ?_, ?_⟩ <;> decide

/-- C4, amended.  On an `end` event for node N the pass requires exactly one
open interval within coupling distance ≤ 1 of N's first qubit (which can
differ from the set of intervals containing N when multi-qubit delays are
present): zero or several adjacent intervals make the sweep fail with the
failure the spec names `UnmatchedDelayEnd`; otherwise the unique adjacent
interval is closed at the event time (recorded if its span is nonzero) and,
if it held more than one contributing node, a new interval over the
remaining nodes is immediately reopened starting at that time. -/
theorem c4_end_event (dist : ℕ → ℕ → ℕ) (st : SweepState) (t : ℤ) (nd : DNode) :
    ((adjacentOpens dist st nd).length ≠ 1 →
      sweepStep dist st ⟨EvKind.evEnd, t, nd⟩ = Except.error SweepError.unmatchedDelayEnd) ∧
    (∀ iv : OpenIv, adjacentOpens dist st nd = [iv] →
      sweepStep dist st ⟨EvKind.evEnd, t, nd⟩ = Except.ok
        { openDelays := st.openDelays.erase iv
            ++ (if 1 < iv.nodes.length
                then [⟨(iv.nodes.filter (fun x => x ≠ nd)).length, t,
                       iv.nodes.filter (fun x => x ≠ nd)⟩]
                else [])
        , closedDelays := st.closedDelays
            ++ (if iv.start ≠ t then [⟨iv.numQubits, iv.start, t, iv.nodes⟩] else []) }) := by
  constructor
  · intro hlen
    unfold sweepStep
    cases hadj : adjacentOpens dist st nd with
    | nil => simp [hadj]
    | cons a rest =>
        cases rest with
        | nil => exact absurd (by rw [hadj]; rfl) hlen
        | cons b rest2 => simp [hadj]
  · intro iv hadj
    simp only [sweepStep, hadj, closeDelay, openDelay]
    by_cases h1 : 1 < iv.nodes.length <;> by_cases h2 : iv.start = t <;> simp [h1, h2]

/-- The open interval used by the C4 witness: both delay nodes of `c4WitnessSt`. -/
def c4WitnessIv : OpenIv := ⟨2, 10, [⟨5, "delay", [0], 300⟩, ⟨6, "delay", [1], 300⟩]⟩

/-- A sweep state with one open 2-node interval. -/
def c4WitnessSt : SweepState := ⟨[c4WitnessIv], []⟩

/-- C4, witness: the amended end-event behavior at a concrete state — the
unique adjacent interval is closed at t=310 and reopened over the remaining
node. -/
theorem c4_end_event_witness :
    adjacentOpens distLine c4WitnessSt ⟨5, "delay", [0], 300⟩ = [c4WitnessIv] ∧
    sweepStep distLine c4WitnessSt ⟨EvKind.evEnd, 310, ⟨5, "delay", [0], 300⟩⟩
      = Except.ok ⟨[⟨1, 310, [⟨6, "delay", [1], 300⟩]⟩],
                   [⟨2, 10, 310, c4WitnessIv.nodes⟩]⟩ :=
  ⟨by decide,
   ((c4_end_event distLine c4WitnessSt 310 ⟨5, "delay", [0], 300⟩).2 c4WitnessIv
      (by decide)).trans (by decide)⟩

/-- The merger's closed-interval production as a function of the scheduled
property set: sorted events, then the sweep. -/
def mergerClosedIntervals (dist : ℕ → ℕ → ℕ) (dagDuration : ℤ)
    (pset : List (DNode × ℤ)) : Except SweepError (List ClosedIv) :=
  (runSweep dist (delayEdges dagDuration pset)).map (fun st => st.closedDelays)

/-- C9.  The merger is deterministic: its closed intervals are a pure
function of the scheduled graph (coupling distances, circuit duration and
node-start-time property set).  Python dict iteration is insertion-ordered,
`sorted` is stable, and the sets in the pass (`joinable_delay_nodes`,
`added_delay_ids`, `seen_replacement_ids`) are used only for membership, so
no nondeterministic iteration order can influence the result: two runs on
equal inputs yield identical closed intervals. -/
theorem c9_merger_deterministic (dist : ℕ → ℕ → ℕ) (dagDuration : ℤ)
    (pset₁ pset₂ : List (DNode × ℤ)) (h : pset₁ = pset₂) :
    mergerClosedIntervals dist dagDuration pset₁
      = mergerClosedIntervals dist dagDuration pset₂ := by
  rw [h]

/-- C9, witness: two runs on the same one-delay schedule agree. -/
theorem c9_merger_deterministic_witness :
    ([(nodeP, (10 : ℤ))] = [(nodeP, (10 : ℤ))]) ∧
    mergerClosedIntervals distLine 400 [(nodeP, 10)]
      = mergerClosedIntervals distLine 400 [(nodeP, 10)] :=
  ⟨rfl, c9_merger_deterministic distLine 400 [(nodeP, 10)] [(nodeP, 10)] rfl⟩

/-! ## CombineAdjacentDelays: graph reconstruction

After the sweep, `run` rebuilds the graph by walking
`dag.topological_op_nodes(key=_key)` (delays ordered before non-delays at
equal rank — the walk order is the Graph Substrate's and is supplied to the
model as a list).  Joinable delays are parked in `open_delay_nodes`; on each
non-delay node the candidate replacement intervals of all parked delays are
sorted by (start, end), deduplicated by object identity (modelled as the
index of the closed interval), and every interval whose end lies in
`(water_mark, node_start_time[node]]` is emitted once as a joint delay; the
trailing loop after the walk emits a parked original delay only when it has
no replacement intervals at all. -/

/-- An operation emitted into the output graph. -/
structure EmitOp where
  name : String
  duration : ℤ
  qargs : List ℕ
deriving DecidableEq

/-- Re-emit an input node unchanged. -/
def emitOf (nd : DNode) : EmitOp := ⟨nd.name, nd.duration, nd.qargs⟩

/-- The `key=lambda k: (k[1], k[2])` sort order on (identity, interval). -/
def repLE (a b : ℕ × ClosedIv) : Prop :=
  a.2.start < b.2.start ∨ (a.2.start = b.2.start ∧ a.2.stop ≤ b.2.stop)

instance : DecidableRel repLE := fun a b => by unfold repLE; infer_instance

/-- Drop duplicate replacement intervals, keeping first occurrences
(`seen_replacement_ids`). -/
def dedupReps : List (ℕ × ClosedIv) → List ℕ → List (ℕ × ClosedIv)
  | [], _ => []
  | p :: rest, seen =>
      if p.1 ∈ seen then dedupReps rest seen
      else p :: dedupReps rest (p.1 :: seen)

/-- The reconstruction walk state: output ops, parked joinable delays,
`water_mark` and `added_delay_ids` (closed-interval indices on the left,
original node identities on the right). -/
structure RebuildSt where
  out : List EmitOp
  openNodes : List DNode
  waterMark : ℤ
  added : List (ℕ ⊕ ℕ)
deriving DecidableEq

/-- Tag membership in `added_delay_ids`. -/
def memTag (tag : ℕ ⊕ ℕ) : List (ℕ ⊕ ℕ) → Bool
  | [] => false
  | t :: ts =>
      (match tag, t with
       | Sum.inl a, Sum.inl b => a == b
       | Sum.inr a, Sum.inr b => a == b
       | _, _ => false) || memTag tag ts

/-- Emit once, remembered by identity (`if id(op) not in added_delay_ids`). -/
def addOnce (s : RebuildSt) (tag : ℕ ⊕ ℕ) (op : EmitOp) : RebuildSt :=
  if memTag tag s.added then s
  else { s with added := s.added ++ [tag], out := s.out ++ [op] }

/-- One step of the reconstruction walk (lines 158-227). -/
def rebuildStep (startT : DNode → ℤ) (joinable : List DNode)
    (repOps : DNode → List (ℕ × ClosedIv)) (st : RebuildSt) (nd : DNode) : RebuildSt :=
  if nd ∈ joinable then { st with openNodes := st.openNodes ++ [nd] }
  else if st.openNodes.isEmpty then { st with out := st.out ++ [emitOf nd] }
  else
    let reps := dedupReps ((st.openNodes.flatMap repOps).insertionSort repLE) []
    let st1 :=
      if reps.isEmpty then
        st.openNodes.foldl (fun s od => addOnce s (Sum.inr od.nid) (emitOf od)) st
      else
        let s2 := reps.foldl (fun s rep =>
          if s.waterMark < rep.2.stop ∧ rep.2.stop ≤ startT nd then
            addOnce s (Sum.inl rep.1)
              ⟨"delay", rep.2.stop - rep.2.start, rep.2.nodes.flatMap (fun x => x.qargs)⟩
          else s) st
        { s2 with waterMark := startT nd }
    addOnce st1 (Sum.inr nd.nid) (emitOf nd)

/-- `CombineAdjacentDelays.run`: event sweep, then reconstruction; returns
the ops of the output graph in emission order. -/
def combineRun (dist : ℕ → ℕ → ℕ) (dagDuration : ℤ) (pset : List (DNode × ℤ))
    (walk : List DNode) : Except SweepError (List EmitOp) :=
  let events := delayEdges dagDuration pset
  let joinable := events.map (fun e => e.node)
  (runSweep dist events).map (fun st =>
    let sortedClosed := st.closedDelays.enum.insertionSort repLE
    let repOps := fun nd => sortedClosed.filter (fun p => nd ∈ p.2.nodes)
    let startT := fun nd => ((pset.find? (fun p => p.1 == nd)).map (fun p => p.2)).getD 0
    let afterWalk := walk.foldl (rebuildStep startT joinable repOps) ⟨[], [], 0, []⟩
    (afterWalk.openNodes.foldl (fun s od =>
        if repOps od = [] ∧ 0 < startT od then addOnce s (Sum.inr od.nid) (emitOf od)
        else s)
      afterWalk).out)

/-- Total duration of delay operations touching qubit `q` (a multi-qubit
delay counts once per spanned qubit). -/
def delaySumOn (q : ℕ) (ops : List EmitOp) : ℤ :=
  (ops.filter (fun o => o.name == "delay" && decide (q ∈ o.qargs))).foldl
    (fun acc o => acc + o.duration) 0

/-- A 10-unit gate on qubit 1 at t=0. -/
def gateQ1 : DNode := ⟨1, "sx", [1], 10⟩

/-- A joinable 500-unit delay on qubit 1 at t=10 (start nonzero, end 510
strictly before the circuit duration 1000, duration above threshold). -/
def delayQ1 : DNode := ⟨2, "delay", [1], 500⟩

/-- A 1000-unit gate on qubit 0 at t=0 — it alone sets the circuit duration. -/
def gateQ0 : DNode := ⟨3, "rx", [0], 1000⟩

/-- The scheduled property set of the three-op circuit. -/
def c5Pset : List (DNode × ℤ) := [(gateQ1, 0), (delayQ1, 10), (gateQ0, 0)]

/-- The delays-first topological walk order of the three-op circuit. -/
def c5Walk : List DNode := [gateQ1, delayQ1, gateQ0]

/-- C5.  The merger loses idle time: on this scheduled circuit the joinable
delay on qubit 1 is swept into a closed interval [10, 510], but the
reconstruction emits a replacement only when its end time lies at or before
the start time of a later non-delay node (and after `water_mark`); `gateQ0`
starts at t=0, so the interval is never flushed, and the trailing loop skips
any parked delay that has replacement intervals.  Qubit 1 enters with 500
units of delay and leaves with none. -/
theorem c5_duration_not_conserved :
    combineRun distLine 1000 c5Pset c5Walk = Except.ok [emitOf gateQ1, emitOf gateQ0] ∧
    delaySumOn 1 (c5Walk.map emitOf) = 500 ∧
    delaySumOn 1 [emitOf gateQ1, emitOf gateQ0] = 0 := by
  refine ⟨?_, ?_, ?_⟩ <;> decide
